import Mathlib

/-!
Verification development for the spine-items repository.

Each section shallowly embeds one part of the source tree and proves the
properties claimed about it.  Pure data manipulations become Lean functions;
stateful Qt/process code becomes explicit state passing plus event traces.
External effects (subprocess runs, file writes, Qt settings) are supplied as
explicit parameters or oracles.
-/

/-! ## Resources (spine_engine.project_item.project_item_resource)

A `ProjectItemResource` as consumed by this repository: a typed handle with a
url, a path, a provider name and optional metadata label.  The metadata dict is
modelled by the single `label` key that the repository reads from it. -/

structure ProjectItemResource where
  type_ : String
  url : Option String := none
  path : String := ""
  provider_name : String := ""
  metadata_label : Option String := none
deriving DecidableEq

/-- Truthiness of `resource.url` in Python: `None` and the empty string are falsy. -/
def ProjectItemResource.url_truthy (r : ProjectItemResource) : Bool :=
  match r.url with
  | none => false
  | some u => u ≠ ""

/-! ## Merger executable item (src/spine_items/merger/executable_item.py)

`ExecutableItem.execute` opens the database resources on both sides inside an
`ExitStack`, spawns a `ReturningProcess` on `do_work`, waits for it and maps the
first element of its return value to a finish state.  The subprocess itself and
the base-class call are external, so the model takes the truthiness of
`super().execute(...)` and of `return_value[0]` as parameters, and records what
the call did as a trace of events: context entries (`opened`), context exits
(`closed`) and the process spawn. -/

inductive ItemExecutionFinishState where
  | SUCCESS
  | FAILURE
  | SKIPPED
  | EXCLUDED
  | STOPPED
  | NEVER_FINISHED
deriving DecidableEq

inductive MergerEvent where
  | opened (url : String)
  | closed (url : String)
  | spawned (from_server_urls to_server_urls : List String)
deriving DecidableEq

/-- Url yielded by entering the scoped context `resource.open()`; modelled as the
resource's url. -/
def resource_server_url (r : ProjectItemResource) : String :=
  (r.url).getD ""

namespace Merger

/-- Model of `ExecutableItem.execute`.  `super_ok` is the truthiness of the
base-class `execute`, `return_value_head_truthy` the truthiness of
`return_value[0]` of the spawned `do_work` subprocess.  Returns the finish state
together with the trace of open/spawn/close events; the `ExitStack` exits the
entered contexts in reverse order when the `with` block is left. -/
def execute (super_ok : Bool) (return_value_head_truthy : Bool)
    (forward_resources backward_resources : List ProjectItemResource) :
    ItemExecutionFinishState × List MergerEvent :=
  if super_ok = false then (ItemExecutionFinishState.FAILURE, [])
  else
    let from_resources := forward_resources.filter (fun r => r.type_ == "database")
    let to_resources := backward_resources.filter (fun r => r.type_ == "database")
    if from_resources.isEmpty || to_resources.isEmpty then
      (ItemExecutionFinishState.SUCCESS, [])
    else
      let from_server_urls := from_resources.map resource_server_url
      let to_server_urls := to_resources.map resource_server_url
      let opens := (from_server_urls ++ to_server_urls).map MergerEvent.opened
      let closes := ((from_server_urls ++ to_server_urls).reverse).map MergerEvent.closed
      ((if return_value_head_truthy then ItemExecutionFinishState.SUCCESS
        else ItemExecutionFinishState.FAILURE),
       opens ++ MergerEvent.spawned from_server_urls to_server_urls :: closes)

/-- Urls of the `opened` events of a trace. -/
def opened_urls (trace : List MergerEvent) : List String :=
  trace.filterMap (fun e =>
    match e with
    | MergerEvent.opened u => some u
    | _ => none)

/-- Urls of the `closed` events of a trace. -/
def closed_urls (trace : List MergerEvent) : List String :=
  trace.filterMap (fun e =>
    match e with
    | MergerEvent.closed u => some u
    | _ => none)

/-- Spawn events of a trace. -/
def spawn_events (trace : List MergerEvent) : List MergerEvent :=
  trace.filter (fun e =>
    match e with
    | MergerEvent.spawned _ _ => true
    | _ => false)

/-- State of the merger item between calls: the `_process` field.  A process
handle is modelled as a number. -/
structure ItemState where
  process : Option Nat
deriving DecidableEq

/-- Model of `ExecutableItem.stop_execution`: terminates `_process` if one is
running and clears the field.  Returns the new state and the list of terminated
process handles.  The base-class `stop_execution` does not touch `_process`. -/
def stop_execution (st : ItemState) : ItemState × List Nat :=
  match st.process with
  | some p => (⟨none⟩, [p])
  | none => (st, [])

end Merger

/-! ## File list model (src/spine_items/models.py)

`FileListModel.update` rebuilds the `_files` list from a list of resources: a
label-to-item dict is built from the current items, resources whose label hits
the dict mutate that (shared) item and record a reference to it in `updated`,
the rest create fresh items in `new`, and `_files` becomes `updated + new`.
Reference semantics is modelled by keeping `updated` as a list of labels (the
dict keys the Python list holds references to) and reading the final item
states out of the dict at the end. -/

/-- Label picked by `_file_label` for a resource; `none` models the
`RuntimeError` raised for an unknown type or for a transient/pattern resource
with neither a metadata label nor a url.  For a `database` resource Python
returns `resource.url` itself, which is assumed present here. -/
def file_label (r : ProjectItemResource) : Option String :=
  if r.type_ = "file" then some r.path
  else if r.type_ = "database" then r.url
  else if r.type_ = "transient_file" ∨ r.type_ = "file_pattern" then
    match r.metadata_label with
    | some label => some label
    | none =>
      match r.url with
      | none => none
      | some _ => some r.path
  else none

structure FileListItem where
  label : String
  path : String
  provider_name : String
  is_pattern : Bool := false
  selected : Bool := true
deriving DecidableEq

namespace FileListItem

/-- Model of `FileListItem.from_resource`; `none` models the `RuntimeError` for
an unknown resource type. -/
def from_resource (r : ProjectItemResource) : Option FileListItem :=
  let mk_item := fun (label : String) (is_pattern : Bool) =>
    some { label := label,
           path := if r.url_truthy then r.path else "",
           provider_name := r.provider_name,
           is_pattern := is_pattern,
           selected := true }
  if r.type_ = "file" then mk_item r.path false
  else if r.type_ = "database" then
    match r.url with
    | some u => mk_item u false
    | none => none
  else if r.type_ = "transient_file" then
    match file_label r with
    | some label => mk_item label false
    | none => none
  else if r.type_ = "file_pattern" then
    match file_label r with
    | some label => mk_item label true
    | none => none
  else none

/-- Model of `FileListItem.update`: refreshes path, provider and pattern flag
from a fresh resource; the label is untouched. -/
def update (it : FileListItem) (r : ProjectItemResource) : FileListItem :=
  { it with
    path := if r.url_truthy then r.path else "",
    provider_name := r.provider_name,
    is_pattern := r.type_ == "file_pattern" }

end FileListItem

namespace FileListModel

/-- Insertion into the label-to-item dict; a later binding for the same label
overwrites the earlier one, as in a Python dict comprehension. -/
def dict_set (m : List (String × FileListItem)) (k : String) (v : FileListItem) :
    List (String × FileListItem) :=
  match m with
  | [] => [(k, v)]
  | (k', v') :: rest => if k' = k then (k, v) :: rest else (k', v') :: dict_set rest k v

/-- The dict `{item.label: item for item in self._files}`. -/
def build_items (files : List FileListItem) : List (String × FileListItem) :=
  files.foldl (fun m it => dict_set m it.label it) []

/-- Resource-processing loop of `FileListModel.update`.  Returns the final dict
state, the `updated` reference list (as labels) and the `new` item list; `none`
models an uncaught `RuntimeError` from `_file_label`/`from_resource`. -/
def update_loop (invalid_resource_types : List String) :
    List ProjectItemResource → List (String × FileListItem) → List String →
    List FileListItem →
    Option (List (String × FileListItem) × List String × List FileListItem)
  | [], items, updated, new => some (items, updated, new)
  | r :: rest, items, updated, new =>
    if invalid_resource_types.contains r.type_ then
      update_loop invalid_resource_types rest items updated new
    else
      match file_label r with
      | none => none
      | some label =>
        match items.lookup label with
        | some it =>
          update_loop invalid_resource_types rest
            (dict_set items label (it.update r)) (updated ++ [label]) new
        | none =>
          match FileListItem.from_resource r with
          | none => none
          | some item => update_loop invalid_resource_types rest items updated (new ++ [item])

/-- Final item read for an `updated` reference: the item now stored in the dict
under the label.  The default is never reached because `updated` labels are dict
keys. -/
def final_item (items : List (String × FileListItem)) (label : String) : FileListItem :=
  (items.lookup label).getD { label := label, path := "", provider_name := "" }

/-- Model of `FileListModel.update`: the new `_files` list, or `none` when the
call raises. -/
def update (files : List FileListItem) (invalid_resource_types : List String)
    (resources : List ProjectItemResource) : Option (List FileListItem) :=
  (update_loop invalid_resource_types resources (build_items files) [] []).map
    (fun out => out.2.1.map (final_item out.1) ++ out.2.2)

end FileListModel

/-! ## Command line args model (src/spine_items/models.py)

`CommandLineArgsModel.dropMimeData` decodes the mime payload and, for a `rows`
payload, re-inserts the dragged rows at the drop position; the reordered list is
emitted through `args_updated`.  The decoded payload is modelled as an inductive
value, the emission as the first component of the result. -/

inductive MimeContents where
  | rows (rs : List Nat)
  | paths (ps : List String)
  | other
deriving DecidableEq

namespace CommandLineArgsModel

/-- Argument list built for a `rows` drop: `head` and `tail` are the kept parts
of `args` before and after the drop row, `body` the dragged rows in drag order.
Python's `self._args[k]` is modelled with a default that is never reached for
valid row indexes. -/
def new_args_for_rows (args : List String) (rows : List Nat) (row : Nat) : List String :=
  let head := ((args.take row).enum.filter (fun kv => !rows.contains kv.1)).map Prod.snd
  let body := rows.map (fun k => args.getD k "")
  let tail := ((args.drop row).enum.filter (fun kv => !rows.contains (kv.1 + row))).map Prod.snd
  head ++ body ++ tail

/-- Model of `CommandLineArgsModel.dropMimeData`: first component is the list
emitted through `args_updated` (if any), second the return value. -/
def dropMimeData (args : List String) (contents : MimeContents) (row : Nat) :
    Option (List String) × Bool :=
  match contents with
  | MimeContents.rows rs => (some (new_args_for_rows args rs row), true)
  | MimeContents.paths ps => (some (args.take row ++ ps ++ args.drop row), true)
  | MimeContents.other => (none, false)

end CommandLineArgsModel

/-! ## Shared project item utilities (src/spine_items/utils.py)

`Database` is a two-field dataclass whose serialization keeps only
`output_file_name`.  `collect_execution_manifests` scans the data directory for
`.export-manifest*.json` files and merges their contents;
`exported_files_as_resources` turns the merged manifests (or an existing cache)
into output resources.  The data directory is modelled as the list of its files
with their parsed JSON contents, file existence as an oracle. -/

structure Database where
  url : String := ""
  output_file_name : String := ""
deriving DecidableEq

namespace Database

/-- Model of `Database.to_dict`: the serialized dict holds only
`output_file_name`. -/
def to_dict (d : Database) : List (String × String) :=
  [("output_file_name", d.output_file_name)]

/-- Model of `Database.from_dict`: a fresh `Database` (url keeps its default
`""`) with `output_file_name` read from the dict; `none` models the `KeyError`
when the key is missing. -/
def from_dict (database_dict : List (String × String)) : Option Database :=
  (database_dict.lookup "output_file_name").map
    (fun ofn => { url := "", output_file_name := ofn })

end Database

/-- File of the exporter data directory: its name and its parsed JSON contents
(a mapping from output label to a list of file paths; empty for files that are
not manifests). -/
structure DataDirFile where
  name : String
  manifest : List (String × List String)
deriving DecidableEq

/-- Manifest file name test of `collect_execution_manifests`:
`path.name.startswith(".export-manifest") and path.suffix == ".json"` (the
suffix test is modelled as an `endsWith`). -/
def is_manifest_file_name (name : String) : Bool :=
  name.startsWith ".export-manifest" && name.endsWith ".json"

/-- Model of `dict.setdefault(key, list()).extend(vs)`. -/
def dict_extend (m : List (String × List String)) (k : String) (vs : List String) :
    List (String × List String) :=
  match m with
  | [] => [(k, vs)]
  | (k', v') :: rest =>
    if k' = k then (k', v' ++ vs) :: rest else (k', v') :: dict_extend rest k vs

/-- Model of `collect_execution_manifests`: `none` until the first manifest
entry is merged (a manifest file whose dict is empty leaves the accumulator
untouched, as in the source).  The source also computes a `relative_paths` list
per entry, but extends the merged dict with the original `paths`, so that
computation does not affect the result and is not modelled. -/
def collect_execution_manifests (data_dir : List DataDirFile) :
    Option (List (String × List String)) :=
  data_dir.foldl
    (fun manifests f =>
      if is_manifest_file_name f.name then
        f.manifest.foldl
          (fun m kv => some (dict_extend (m.getD []) kv.1 kv.2)) manifests
      else manifests)
    none

/-- Output resource constructors used by `exported_files_as_resources`
(`file_resource_in_pack` and `transient_file_resource` from spine_engine). -/
inductive OutputResource where
  | file_resource_in_pack (provider_name : String) (label : String) (file_path : String)
  | transient_file_resource (provider_name : String) (label : String)
deriving DecidableEq

/-- Model of `exported_files_as_resources`.  `data_dir_files` stands for the
data directory contents, `data_dir` for its path, `file_exists` for
`Path(f).exists()`.  Python's set comprehension over the cached files is
modelled as filter-then-dedup (set iteration order is not specified).  As in
the source, a non-empty file set *replaces* the resource list built so far,
and `Path(data_dir, f)` is modelled as joining with a slash. -/
def exported_files_as_resources (item_name : String)
    (exported_files : Option (List (String × List String))) (data_dir : String)
    (databases : List Database) (data_dir_files : List DataDirFile)
    (file_exists : String → Bool) :
    List OutputResource × Option (List (String × List String)) :=
  let manifests := collect_execution_manifests data_dir_files
  let exported_files :=
    match manifests with
    | some ms =>
      let names := databases.map (fun db => db.output_file_name)
      some ((ms.filter (fun kv => names.contains kv.1)).map
        (fun kv => (kv.1, kv.2.map (fun f => data_dir ++ "/" ++ f))))
    | none => exported_files
  let resources :=
    match exported_files with
    | some ef =>
      databases.foldl
        (fun resources db =>
          if db.output_file_name ≠ "" then
            let files := (((ef.lookup db.output_file_name).getD []).filter file_exists).dedup
            if files ≠ [] then
              files.map (fun f =>
                OutputResource.file_resource_in_pack item_name db.output_file_name f)
            else
              resources ++ [OutputResource.transient_file_resource item_name db.output_file_name]
          else resources)
        []
    | none =>
      databases.foldl
        (fun resources db =>
          if db.output_file_name ≠ "" then
            resources ++ [OutputResource.transient_file_resource item_name db.output_file_name]
          else resources)
        []
  (resources, exported_files)

/-! ## Tool specification editor (src/spine_items/tool/widgets/tool_specification_editor_window.py)

Property edits push a `ChangeSpecPropertyCommand` (from spinetoolbox) holding
the setter callback, the new and the old value onto the editor's single
`QUndoStack`; pushing executes the command (the callback is applied to the new
value), undoing applies the callback to the old value.  The editor state
modelled here is the `spec_dict` entries the claims touch, the
`includes_main_path` field and the undo stack.  File system paths are modelled
as component lists; `os.path.join` is concatenation, `os.path.basename` /
`os.path.dirname` split off the last component, and `os.path.relpath` against a
prefix drops it (the `..`-resolution of the Python function is never needed at
the call sites modelled).  UI-widget refreshes performed by the setters are not
part of the state. -/

abbrev FPath := List String

/-- Model of Python's `str.lower` (character-wise lowercasing; the tool type
names are ASCII). -/
def str_to_lower (s : String) : String :=
  String.mk (s.data.map Char.toLower)

def path_join (base p : FPath) : FPath := base ++ p

def path_basename (p : FPath) : FPath :=
  match p.getLast? with
  | some c => [c]
  | none => []

def path_dirname (p : FPath) : FPath := p.dropLast

def path_relpath (p base : FPath) : FPath :=
  if base.isPrefixOf p then p.drop base.length else p

/-- Execution-settings blob; the editor only swaps whole blobs in and out, so it
is left abstract. -/
abbrev ExecutionSettings := String

/-- Application settings the tooltype setter reads its default execution
settings from (`self._toolbox.qsettings()`). -/
structure QtAppSettings where
  python_defaults : ExecutionSettings
  executable_defaults : ExecutionSettings
deriving DecidableEq

/-- The `spec_dict` keys involved in the modelled edits; `none` models an absent
key, so `spec_dict.get(key, default)` is `getD`. -/
structure SpecDict where
  tooltype : Option String := none
  cmdline_args : Option (List String) := none
  includes : Option (List FPath) := none
  inputfiles : Option (List String) := none
  inputfiles_opt : Option (List String) := none
  outputfiles : Option (List String) := none
  execution_settings : Option ExecutionSettings := none
deriving DecidableEq

/-- Setter callbacks a pushed command can refer to. -/
inductive SetterId where
  | set_tooltype
  | set_cmdline_args
  | set_program_files
  | populate_inputfiles_list
  | populate_inputfiles_opt_list
  | populate_outputfiles_list
deriving DecidableEq

/-- Property values carried by commands. -/
inductive PropValue where
  | str (s : String)
  | strList (ss : List String)
  | pathList (ps : List FPath)
deriving DecidableEq

/-- Model of spinetoolbox's `ChangeSpecPropertyCommand`: a reversible
property-change object storing the setter callback, the new and the old value
and a description. -/
structure ChangeSpecPropertyCommand where
  setter : SetterId
  new_value : PropValue
  old_value : PropValue
  text : String
deriving DecidableEq

structure EditorState where
  spec_dict : SpecDict
  includes_main_path : Option FPath
  undo_stack : List ChangeSpecPropertyCommand
deriving DecidableEq

namespace ToolSpecEditor

/-- Model of `clear_execution_settings`: pops the key, then installs defaults
for python/executable tool types. -/
def clear_execution_settings (qs : QtAppSettings) (spec_type : String) (sd : SpecDict) :
    SpecDict :=
  let sd := { sd with execution_settings := none }
  if spec_type = "python" then { sd with execution_settings := some qs.python_defaults }
  else if spec_type = "executable" then
    { sd with execution_settings := some qs.executable_defaults }
  else sd

/-- Model of `_set_tooltype` (the lexer/combobox updates are UI-only). -/
def set_tooltype (qs : QtAppSettings) (value : String) (st : EditorState) : EditorState :=
  { st with spec_dict :=
      clear_execution_settings qs value { st.spec_dict with tooltype := some value } }

/-- Model of `_set_cmdline_args` (the line-edit refresh is UI-only). -/
def set_cmdline_args (value : List String) (st : EditorState) : EditorState :=
  { st with spec_dict := { st.spec_dict with cmdline_args := some value } }

/-- Model of `_set_program_files`: recomputes `includes_main_path` from the
first non-empty path and stores the includes as basename-of-main plus paths
relative to the main path. -/
def set_program_files (program_files : List FPath) (st : EditorState) : EditorState :=
  let main_program_file := program_files.headD []
  let first_named := (program_files.filter (fun f => !f.isEmpty)).headD []
  let main_path := path_dirname first_named
  let additional := (program_files.drop 1).map (fun f => path_relpath f main_path)
  { st with
    includes_main_path := some main_path,
    spec_dict := { st.spec_dict with
      includes := some (path_basename main_program_file :: additional) } }

/-- Model of `populate_inputfiles_list` (the tree-view refresh is UI-only). -/
def populate_inputfiles_list (value : List String) (st : EditorState) : EditorState :=
  { st with spec_dict := { st.spec_dict with inputfiles := some value } }

/-- Model of `populate_inputfiles_opt_list` (the tree-view refresh is UI-only). -/
def populate_inputfiles_opt_list (value : List String) (st : EditorState) : EditorState :=
  { st with spec_dict := { st.spec_dict with inputfiles_opt := some value } }

/-- Model of `populate_outputfiles_list` (the tree-view refresh is UI-only). -/
def populate_outputfiles_list (value : List String) (st : EditorState) : EditorState :=
  { st with spec_dict := { st.spec_dict with outputfiles := some value } }

/-- Dispatch of a command's setter callback on a stored value. -/
def apply_setter (qs : QtAppSettings) (sid : SetterId) (v : PropValue) (st : EditorState) :
    EditorState :=
  match sid, v with
  | SetterId.set_tooltype, PropValue.str s => set_tooltype qs s st
  | SetterId.set_cmdline_args, PropValue.strList ss => set_cmdline_args ss st
  | SetterId.set_program_files, PropValue.pathList ps => set_program_files ps st
  | SetterId.populate_inputfiles_list, PropValue.strList ss => populate_inputfiles_list ss st
  | SetterId.populate_inputfiles_opt_list, PropValue.strList ss =>
    populate_inputfiles_opt_list ss st
  | SetterId.populate_outputfiles_list, PropValue.strList ss => populate_outputfiles_list ss st
  | _, _ => st

/-- Model of `QUndoStack.push`: appends the command and executes it (applies the
setter to the new value). -/
def push_command (qs : QtAppSettings) (st : EditorState) (c : ChangeSpecPropertyCommand) :
    EditorState :=
  apply_setter qs c.setter c.new_value { st with undo_stack := st.undo_stack ++ [c] }

/-- Model of `ChangeSpecPropertyCommand.undo`: applies the setter to the stored
old value. -/
def undo_command (qs : QtAppSettings) (c : ChangeSpecPropertyCommand) (st : EditorState) :
    EditorState :=
  apply_setter qs c.setter c.old_value st

/-- Model of `_push_change_tooltype_command`; `tool_types` stands for the
`TOOL_TYPES` constant (defined outside this excerpt). -/
def push_change_tooltype_command (qs : QtAppSettings) (tool_types : List String)
    (index : Nat) (st : EditorState) : EditorState :=
  let new_type := str_to_lower (tool_types.getD index "")
  let old_type := st.spec_dict.tooltype.getD ""
  if new_type = old_type then st
  else
    push_command qs st
      ⟨SetterId.set_tooltype, PropValue.str new_type, PropValue.str old_type,
        "change Tool specification type"⟩

/-- Model of `_push_change_args_command`; `new_value` stands for
`split_cmdline_args(self._ui.lineEdit_args.text())`. -/
def push_change_args_command (new_value : List String) (qs : QtAppSettings)
    (st : EditorState) : EditorState :=
  let old_value := st.spec_dict.cmdline_args.getD []
  if new_value = old_value then st
  else
    push_command qs st
      ⟨SetterId.set_cmdline_args, PropValue.strList new_value, PropValue.strList old_value,
        "change command line args"⟩

/-- Model of `_validate_additional_program_files`: drops files already among the
program files and, when a main path exists, files outside it (the
`commonprefix`/`same_path` test is a component-prefix test); the status-bar
messages about dropped files are UI-only. -/
def validate_additional_program_files (new_files old_program_files : List FPath)
    (includes_main_path : Option FPath) : List FPath :=
  new_files.filter (fun f =>
    !old_program_files.contains f &&
      (match includes_main_path with
       | none => true
       | some m => m.isPrefixOf f))

/-- Model of `add_program_files`. -/
def add_program_files (qs : QtAppSettings) (new_files : List FPath) (st : EditorState) :
    EditorState :=
  let old_rel := st.spec_dict.includes.getD []
  let old_program_files :=
    match st.includes_main_path with
    | some mp => old_rel.map (path_join mp)
    | none => old_rel
  let valid := validate_additional_program_files new_files old_program_files
    st.includes_main_path
  if valid.isEmpty then st
  else
    push_command qs st
      ⟨SetterId.set_program_files, PropValue.pathList (old_program_files ++ valid),
        PropValue.pathList old_program_files, "add program files"⟩

/-- Model of `add_inputfiles`; `file_name` stands for the dialog answer, the
empty string for a cancelled dialog. -/
def add_inputfiles (qs : QtAppSettings) (file_name : String) (st : EditorState) :
    EditorState :=
  if file_name = "" then st
  else
    let old_files := st.spec_dict.inputfiles.getD []
    push_command qs st
      ⟨SetterId.populate_inputfiles_list, PropValue.strList (old_files ++ [file_name]),
        PropValue.strList old_files, "add input file"⟩

/-- Model of `add_inputfiles_opt`; `file_name` stands for the dialog answer,
the empty string for a cancelled dialog. -/
def add_inputfiles_opt (qs : QtAppSettings) (file_name : String) (st : EditorState) :
    EditorState :=
  if file_name = "" then st
  else
    let old_files := st.spec_dict.inputfiles_opt.getD []
    push_command qs st
      ⟨SetterId.populate_inputfiles_opt_list, PropValue.strList (old_files ++ [file_name]),
        PropValue.strList old_files, "add optional input file"⟩

/-- Model of `add_outputfiles`; `file_name` stands for the dialog answer, the
empty string for a cancelled dialog. -/
def add_outputfiles (qs : QtAppSettings) (file_name : String) (st : EditorState) :
    EditorState :=
  if file_name = "" then st
  else
    let old_files := st.spec_dict.outputfiles.getD []
    push_command qs st
      ⟨SetterId.populate_outputfiles_list, PropValue.strList (old_files ++ [file_name]),
        PropValue.strList old_files, "add output file"⟩

end ToolSpecEditor

/-! ## Saving program files (ToolSpecificationEditorWindow._save / _save_program_file)

After the base-class save, `_save` walks the open program-file documents in
order, writes each modified one, marks it unmodified on success and collects its
basename; on the first `IOError` it shows an error message naming the file and
returns `True` immediately, skipping the remaining documents and the
success-status message.  The file system is an oracle mapping a path to the
error produced by writing it (or `none` on success); a document is its path plus
its modified flag (the text itself does not influence control flow). -/

structure ProgramFileDoc where
  file_path : String
  modified : Bool
deriving DecidableEq

/-- Model of `os.path.basename` on plain string paths: the text after the last
slash. -/
def os_path_basename (p : String) : String :=
  String.mk (p.data.foldl (fun acc c => if c = '/' then [] else acc ++ [c]) [])

namespace ToolSpecEditor

/-- Model of `_save_program_file`: returns the `IOError` raised by writing the
file, or `none` on success. -/
def save_program_file (write_err : String → Option String) (file_path : String) :
    Option String :=
  write_err file_path

/-- Document loop of `_save`: returns the documents with their new modified
flags, the paths written, the collected basenames of saved files, and the error
message of the first failing write (if any); documents after a failure are left
untouched. -/
def save_loop (write_err : String → Option String) :
    List ProgramFileDoc → List ProgramFileDoc × List String × List String × Option String
  | [] => ([], [], [], none)
  | doc :: rest =>
    if doc.modified = false then
      let out := save_loop write_err rest
      (doc :: out.1, out.2)
    else
      match save_program_file write_err doc.file_path with
      | none =>
        let out := save_loop write_err rest
        ({ doc with modified := false } :: out.1, doc.file_path :: out.2.1,
          os_path_basename doc.file_path :: out.2.2.1, out.2.2.2)
      | some err =>
        (doc :: rest, [], [],
          some ("Error while saving " ++ os_path_basename doc.file_path ++ ": " ++ err))

/-- Observable outcome of a `_save` call. -/
structure SaveOutcome where
  returned : Bool
  docs : List ProgramFileDoc
  error_messages : List String
  status_bar_messages : List String
  written : List String
deriving DecidableEq

/-- Model of `_save`: `super_ok` is the result of the base-class `_save`.  On a
write error the error message is shown and `True` is returned at once, so the
saved-files status message is only shown in error-free runs. -/
def save (super_ok : Bool) (write_err : String → Option String)
    (docs : List ProgramFileDoc) : SaveOutcome :=
  if super_ok = false then ⟨false, docs, [], [], []⟩
  else
    let out := save_loop write_err docs
    match out.2.2.2 with
    | some msg => ⟨true, out.1, [msg], [], out.2.1⟩
    | none =>
      ⟨true, out.1, [],
        (if out.2.2.1.isEmpty then []
         else ["Program files " ++ String.intercalate ", " out.2.2.1 ++ " saved successfully"]),
        out.2.1⟩

end ToolSpecEditor

/-! ## Theorems -/

theorem filter_database_ne_nil {rs : List ProjectItemResource}
    (h : ∃ r ∈ rs, r.type_ = "database") :
    (rs.filter (fun r => r.type_ == "database")).isEmpty = false := by
  obtain ⟨r, hr, ht⟩ := h
  have : r ∈ rs.filter (fun r => r.type_ == "database") :=
    List.mem_filter.2 ⟨hr, by simp [ht]⟩
  exact List.isEmpty_eq_false.mpr (List.ne_nil_of_mem this)

/-- C1: when the forward and backward resources each contain a database
resource (and the base-class execute succeeds, so that a subprocess is
spawned), `Merger.execute` reports SUCCESS exactly when the first element of
the subprocess's return value is truthy, and the reported state is one of the
two plain success/failure values. -/
theorem merger_execute_success_iff_return_value_truthy
    (ret : Bool) (fw bw : List ProjectItemResource)
    (hf : ∃ r ∈ fw, r.type_ = "database") (hb : ∃ r ∈ bw, r.type_ = "database") :
    ((Merger.execute true ret fw bw).1 = ItemExecutionFinishState.SUCCESS ↔ ret = true) ∧
    ((Merger.execute true ret fw bw).1 = ItemExecutionFinishState.SUCCESS ∨
      (Merger.execute true ret fw bw).1 = ItemExecutionFinishState.FAILURE) := by
  have hfe := filter_database_ne_nil hf
  have hbe := filter_database_ne_nil hb
  unfold Merger.execute
  simp only [hfe, hbe, Bool.false_or, if_false]
  cases ret <;> simp

/-- C1 witness: concrete run with one database resource on each side. -/
theorem merger_execute_success_iff_return_value_truthy_witness :
    ((Merger.execute true true [⟨"database", some "a", "", "", none⟩]
        [⟨"database", some "b", "", "", none⟩]).1 = ItemExecutionFinishState.SUCCESS ↔
      (true : Bool) = true) ∧
    ((Merger.execute true true [⟨"database", some "a", "", "", none⟩]
        [⟨"database", some "b", "", "", none⟩]).1 = ItemExecutionFinishState.SUCCESS ∨
      (Merger.execute true true [⟨"database", some "a", "", "", none⟩]
        [⟨"database", some "b", "", "", none⟩]).1 = ItemExecutionFinishState.FAILURE) :=
  merger_execute_success_iff_return_value_truthy true
    [⟨"database", some "a", "", "", none⟩] [⟨"database", some "b", "", "", none⟩]
    ⟨⟨"database", some "a", "", "", none⟩, by simp⟩
    ⟨⟨"database", some "b", "", "", none⟩, by simp⟩

/-- C2 counterexample: with no forward database resource (and a database on the
backward side), `execute` reports SUCCESS while its trace holds no spawn event —
no merge subprocess is run before success is reported. -/
theorem merger_execute_success_without_spawn :
    (Merger.execute true true [] [⟨"database", some "b", "", "", none⟩]).1 =
      ItemExecutionFinishState.SUCCESS ∧
    Merger.spawn_events
      (Merger.execute true true [] [⟨"database", some "b", "", "", none⟩]).2 = [] := by
  constructor <;> rfl

/-- C2 amended: whenever both resource lists contain a database resource and the
base-class execute succeeds, the call's trace is exactly the context entries,
one spawn of the merge subprocess on the opened source and target server urls,
and the context exits — in particular a merge subprocess is spawned before
success can be reported; with no database resource on one of the sides, SUCCESS
is reported without spawning anything. -/
theorem merger_execute_spawns_merge_subprocess
    (ret : Bool) (fw bw : List ProjectItemResource)
    (hf : ∃ r ∈ fw, r.type_ = "database") (hb : ∃ r ∈ bw, r.type_ = "database") :
    (Merger.execute true ret fw bw).2 =
      (((fw.filter (fun r => r.type_ == "database")).map resource_server_url ++
          (bw.filter (fun r => r.type_ == "database")).map resource_server_url).map
        MergerEvent.opened) ++
      MergerEvent.spawned
          ((fw.filter (fun r => r.type_ == "database")).map resource_server_url)
          ((bw.filter (fun r => r.type_ == "database")).map resource_server_url) ::
        ((((fw.filter (fun r => r.type_ == "database")).map resource_server_url ++
            (bw.filter (fun r => r.type_ == "database")).map resource_server_url).reverse).map
          MergerEvent.closed) ∧
    MergerEvent.spawned
        ((fw.filter (fun r => r.type_ == "database")).map resource_server_url)
        ((bw.filter (fun r => r.type_ == "database")).map resource_server_url) ∈
      (Merger.execute true ret fw bw).2 := by
  have hfe := filter_database_ne_nil hf
  have hbe := filter_database_ne_nil hb
  unfold Merger.execute
  simp only [hfe, hbe, Bool.false_or, if_false]
  refine ⟨rfl, ?_⟩
  exact List.mem_append_right _ (List.mem_cons_self _ _)

/-- C2 witness: concrete run with one database resource on each side. -/
theorem merger_execute_spawns_merge_subprocess_witness :
    MergerEvent.spawned ["a"] ["b"] ∈
      (Merger.execute true false [⟨"database", some "a", "", "", none⟩]
        [⟨"database", some "b", "", "", none⟩]).2 :=
  (merger_execute_spawns_merge_subprocess false
    [⟨"database", some "a", "", "", none⟩] [⟨"database", some "b", "", "", none⟩]
    ⟨⟨"database", some "a", "", "", none⟩, by simp⟩
    ⟨⟨"database", some "b", "", "", none⟩, by simp⟩).2

theorem opened_urls_append (a b : List MergerEvent) :
    Merger.opened_urls (a ++ b) = Merger.opened_urls a ++ Merger.opened_urls b :=
  List.filterMap_append a b _

theorem closed_urls_append (a b : List MergerEvent) :
    Merger.closed_urls (a ++ b) = Merger.closed_urls a ++ Merger.closed_urls b :=
  List.filterMap_append a b _

theorem opened_urls_map_opened (urls : List String) :
    Merger.opened_urls (urls.map MergerEvent.opened) = urls := by
  induction urls with
  | nil => rfl
  | cons u us ih => simpa [Merger.opened_urls, List.filterMap_cons] using ih

theorem opened_urls_map_closed (urls : List String) :
    Merger.opened_urls (urls.map MergerEvent.closed) = [] := by
  induction urls with
  | nil => rfl
  | cons u us ih => simp [Merger.opened_urls, List.filterMap_cons, ih]

theorem closed_urls_map_closed (urls : List String) :
    Merger.closed_urls (urls.map MergerEvent.closed) = urls := by
  induction urls with
  | nil => rfl
  | cons u us ih => simpa [Merger.closed_urls, List.filterMap_cons] using ih

theorem closed_urls_map_opened (urls : List String) :
    Merger.closed_urls (urls.map MergerEvent.opened) = [] := by
  induction urls with
  | nil => rfl
  | cons u us ih => simp [Merger.closed_urls, List.filterMap_cons, ih]

theorem closed_open_reverse_core (fu tu : List String) :
    Merger.closed_urls ((fu ++ tu).map MergerEvent.opened ++
        MergerEvent.spawned fu tu :: ((fu ++ tu).reverse).map MergerEvent.closed) =
      (Merger.opened_urls ((fu ++ tu).map MergerEvent.opened ++
        MergerEvent.spawned fu tu :: ((fu ++ tu).reverse).map MergerEvent.closed)).reverse := by
  have h1 : ∀ l, Merger.closed_urls (MergerEvent.spawned fu tu :: l) = Merger.closed_urls l := by
    intro l
    simp [Merger.closed_urls, List.filterMap_cons]
  have h2 : ∀ l, Merger.opened_urls (MergerEvent.spawned fu tu :: l) = Merger.opened_urls l := by
    intro l
    simp [Merger.opened_urls, List.filterMap_cons]
  rw [closed_urls_append, opened_urls_append, opened_urls_map_opened, closed_urls_map_opened,
    h1, h2, closed_urls_map_closed, opened_urls_map_closed]
  simp

/-- C3: on every path through `Merger.execute` — success or failure — the urls
closed by leaving the `ExitStack` scope are exactly the opened ones (in reverse
entry order), so every database url opened during the call is released by the
time it returns. -/
theorem merger_execute_releases_every_opened_url
    (super_ok ret : Bool) (fw bw : List ProjectItemResource) :
    Merger.closed_urls (Merger.execute super_ok ret fw bw).2 =
      (Merger.opened_urls (Merger.execute super_ok ret fw bw).2).reverse := by
  unfold Merger.execute
  by_cases hs : super_ok = false
  · rw [if_pos hs]
    rfl
  · rw [if_neg hs]
    by_cases hb :
        ((fw.filter (fun r => r.type_ == "database")).isEmpty ||
          (bw.filter (fun r => r.type_ == "database")).isEmpty) = true
    · rw [if_pos hb]
      rfl
    · rw [if_neg hb]
      exact closed_open_reverse_core _ _

/-- C4: `stop_execution` leaves no process reference behind; a running merge
subprocess is terminated, and with no subprocess running nothing is terminated
and the item is unchanged. -/
theorem merger_stop_execution_terminates_and_clears (st : Merger.ItemState) :
    ((Merger.stop_execution st).1.process = none) ∧
    (∀ p, st.process = some p → Merger.stop_execution st = (⟨none⟩, [p])) ∧
    (st.process = none → Merger.stop_execution st = (st, [])) := by
  cases st with
  | mk proc =>
    cases proc <;> simp [Merger.stop_execution]

/-- C4 witness: terminating a concrete running process, and stopping an idle
item. -/
theorem merger_stop_execution_terminates_and_clears_witness :
    Merger.stop_execution ⟨some 5⟩ = (⟨none⟩, [5]) ∧
    Merger.stop_execution ⟨none⟩ = (⟨none⟩, []) :=
  ⟨(merger_stop_execution_terminates_and_clears ⟨some 5⟩).2.1 5 rfl,
    (merger_stop_execution_terminates_and_clears ⟨none⟩).2.2 rfl⟩

/-- C9: serializing a `Database` and deserializing it yields a database whose
`output_file_name` is preserved and whose `url` is reset to the empty string
(the url is not serialized). -/
theorem database_to_dict_from_dict_roundtrip (d : Database) :
    Database.from_dict d.to_dict =
      some { url := "", output_file_name := d.output_file_name } := by
  rfl

theorem manifest_fold_const (data_dir : List DataDirFile)
    (acc : Option (List (String × List String)))
    (hno : ∀ f ∈ data_dir, is_manifest_file_name f.name = false) :
    data_dir.foldl
      (fun manifests f =>
        if is_manifest_file_name f.name then
          f.manifest.foldl (fun m kv => some (dict_extend (m.getD []) kv.1 kv.2)) manifests
        else manifests) acc = acc := by
  induction data_dir generalizing acc with
  | nil => rfl
  | cons f fs ih =>
    rw [List.foldl_cons, if_neg (by simp [hno f (List.mem_cons_self f fs)])]
    exact ih acc (fun g hg => hno g (List.mem_cons_of_mem f hg))

theorem collect_execution_manifests_eq_none (data_dir : List DataDirFile)
    (hno : ∀ f ∈ data_dir, is_manifest_file_name f.name = false) :
    collect_execution_manifests data_dir = none :=
  manifest_fold_const data_dir none hno

theorem transient_fold (item_name : String) (databases : List Database)
    (acc : List OutputResource) :
    databases.foldl
      (fun resources db =>
        if db.output_file_name ≠ "" then
          resources ++ [OutputResource.transient_file_resource item_name db.output_file_name]
        else resources) acc =
    acc ++ (databases.filter (fun db => db.output_file_name ≠ "")).map
      (fun db => OutputResource.transient_file_resource item_name db.output_file_name) := by
  induction databases generalizing acc with
  | nil => simp
  | cons db dbs ih =>
    rw [List.foldl_cons]
    by_cases h : db.output_file_name ≠ ""
    · rw [if_pos h, ih]
      simp [List.filter_cons, h]
    · rw [if_neg h, ih]
      simp [List.filter_cons, h]

/-- C10: with no exported-files cache and no manifest file in the data
directory, `exported_files_as_resources` returns one transient file resource
per database with a non-empty output file name, in database iteration order,
and the returned cache is `none`. -/
theorem exported_files_as_resources_no_manifest
    (item_name data_dir : String) (databases : List Database)
    (data_dir_files : List DataDirFile) (file_exists : String → Bool)
    (hno : ∀ f ∈ data_dir_files, is_manifest_file_name f.name = false) :
    exported_files_as_resources item_name none data_dir databases data_dir_files file_exists =
      ((databases.filter (fun db => db.output_file_name ≠ "")).map
        (fun db => OutputResource.transient_file_resource item_name db.output_file_name),
       none) := by
  unfold exported_files_as_resources
  rw [show collect_execution_manifests data_dir_files = none from
    collect_execution_manifests_eq_none data_dir_files hno]
  rw [transient_fold]
  simp

/-- C10 witness: a data directory holding only a non-manifest file, one
database with an output file and one without. -/
theorem exported_files_as_resources_no_manifest_witness :
    exported_files_as_resources "Exporter 1" none "dd"
        [⟨"sqlite:///in.sqlite", "out1.csv"⟩, ⟨"sqlite:///other.sqlite", ""⟩]
        [⟨"notes.txt", []⟩] (fun _ => true) =
      ([OutputResource.transient_file_resource "Exporter 1" "out1.csv"], none) := by
  have h := exported_files_as_resources_no_manifest "Exporter 1" "dd"
    [⟨"sqlite:///in.sqlite", "out1.csv"⟩, ⟨"sqlite:///other.sqlite", ""⟩]
    [⟨"notes.txt", []⟩] (fun _ => true) (by decide)
  simpa using h

theorem save_loop_error (write_err : String → Option String) (pre : List ProgramFileDoc)
    (bad : ProgramFileDoc) (post : List ProgramFileDoc) (err : String)
    (hpre : ∀ d ∈ pre, d.modified = true → write_err d.file_path = none)
    (hbad : bad.modified = true) (herr : write_err bad.file_path = some err) :
    ToolSpecEditor.save_loop write_err (pre ++ bad :: post) =
      (pre.map (fun d => if d.modified then { d with modified := false } else d) ++
          bad :: post,
        (pre.filter (fun d => d.modified)).map (fun d => d.file_path),
        (pre.filter (fun d => d.modified)).map (fun d => os_path_basename d.file_path),
        some ("Error while saving " ++ os_path_basename bad.file_path ++ ": " ++ err)) := by
  induction pre with
  | nil =>
    simp only [List.nil_append, ToolSpecEditor.save_loop, ToolSpecEditor.save_program_file,
      hbad, herr]
    simp
  | cons d pre' ih =>
    have hrest : ∀ g ∈ pre', g.modified = true → write_err g.file_path = none :=
      fun g hg => hpre g (List.mem_cons_of_mem d hg)
    cases hm : d.modified with
    | false =>
      simp only [List.cons_append, ToolSpecEditor.save_loop, ToolSpecEditor.save_program_file,
        List.append_eq, hm]
      rw [ih hrest]
      simp [List.filter_cons, hm]
    | true =>
      have hw : write_err d.file_path = none := hpre d (List.mem_cons_self d pre') hm
      simp only [List.cons_append, ToolSpecEditor.save_loop, ToolSpecEditor.save_program_file,
        List.append_eq, hm, hw]
      rw [ih hrest]
      simp [List.filter_cons, hm]

theorem save_loop_ok (write_err : String → Option String) (docs : List ProgramFileDoc)
    (hall : ∀ d ∈ docs, d.modified = true → write_err d.file_path = none) :
    ToolSpecEditor.save_loop write_err docs =
      (docs.map (fun d => if d.modified then { d with modified := false } else d),
        (docs.filter (fun d => d.modified)).map (fun d => d.file_path),
        (docs.filter (fun d => d.modified)).map (fun d => os_path_basename d.file_path),
        none) := by
  induction docs with
  | nil => rfl
  | cons d rest ih =>
    have hrest : ∀ g ∈ rest, g.modified = true → write_err g.file_path = none :=
      fun g hg => hall g (List.mem_cons_of_mem d hg)
    cases hm : d.modified with
    | false =>
      simp only [ToolSpecEditor.save_loop, ToolSpecEditor.save_program_file, hm]
      rw [ih hrest]
      simp [List.filter_cons, hm]
    | true =>
      have hw : write_err d.file_path = none := hall d (List.mem_cons_self d rest) hm
      simp only [ToolSpecEditor.save_loop, ToolSpecEditor.save_program_file, hm, hw]
      rw [ih hrest]
      simp [List.filter_cons, hm]

/-- C7 amended: when the base save succeeds and writing some modified program
file raises an IOError (all modified files before it writing cleanly), `_save`
shows exactly one error message naming that file, leaves that file's document
modified, writes no subsequent document, shows no status-bar message and still
returns True; modified files written without error before the failure are
marked unmodified.  When every write succeeds `_save` marks all modified
documents unmodified and reports them in the status-bar message. -/
theorem tool_editor_save_behaviour :
    (∀ (write_err : String → Option String) (pre : List ProgramFileDoc)
        (bad : ProgramFileDoc) (post : List ProgramFileDoc) (err : String),
      (∀ d ∈ pre, d.modified = true → write_err d.file_path = none) →
      bad.modified = true → write_err bad.file_path = some err →
      ToolSpecEditor.save true write_err (pre ++ bad :: post) =
        ⟨true,
          pre.map (fun d => if d.modified then { d with modified := false } else d) ++
            bad :: post,
          ["Error while saving " ++ os_path_basename bad.file_path ++ ": " ++ err],
          [],
          (pre.filter (fun d => d.modified)).map (fun d => d.file_path)⟩) ∧
    (∀ (write_err : String → Option String) (docs : List ProgramFileDoc),
      (∀ d ∈ docs, d.modified = true → write_err d.file_path = none) →
      ToolSpecEditor.save true write_err docs =
        ⟨true,
          docs.map (fun d => if d.modified then { d with modified := false } else d),
          [],
          (if (docs.filter (fun d => d.modified)).isEmpty then []
           else ["Program files " ++
              String.intercalate ", "
                ((docs.filter (fun d => d.modified)).map
                  (fun d => os_path_basename d.file_path)) ++
              " saved successfully"]),
          (docs.filter (fun d => d.modified)).map (fun d => d.file_path)⟩) := by
  constructor
  · intro write_err pre bad post err hpre hbad herr
    unfold ToolSpecEditor.save
    rw [if_neg (by simp)]
    rw [save_loop_error write_err pre bad post err hpre hbad herr]
  · intro write_err docs hall
    unfold ToolSpecEditor.save
    rw [if_neg (by simp)]
    rw [save_loop_ok write_err docs hall]
    simp

/-- C7 witness: a clean run saving one modified file, and a run where the
second file's write fails. -/
theorem tool_editor_save_behaviour_witness :
    ToolSpecEditor.save true
        (fun p => if p = "dir/b.py" then some "disk full" else none)
        [⟨"dir/a.py", true⟩, ⟨"dir/b.py", true⟩] =
      ⟨true, [⟨"dir/a.py", false⟩, ⟨"dir/b.py", true⟩],
        ["Error while saving b.py: disk full"], [], ["dir/a.py"]⟩ ∧
    ToolSpecEditor.save true (fun _ => none) [⟨"dir/a.py", true⟩] =
      ⟨true, [⟨"dir/a.py", false⟩], [],
        ["Program files a.py saved successfully"], ["dir/a.py"]⟩ := by
  constructor
  · exact (tool_editor_save_behaviour.1
      (fun p => if p = "dir/b.py" then some "disk full" else none)
      [⟨"dir/a.py", true⟩] ⟨"dir/b.py", true⟩ [] "disk full"
      (by decide) (by decide) (by decide)).trans (by decide)
  · exact (tool_editor_save_behaviour.2 (fun _ => none) [⟨"dir/a.py", true⟩]
      (by decide)).trans (by decide)

/-- C7 counterexample: the base save succeeds, writing `dir/b.py` fails with an
IOError, and `dir/a.py` was written without error and marked unmodified — yet
no status-bar message is shown at all, so the saved file is not reported in a
status-bar message as the claim states. -/
theorem tool_editor_save_no_status_message_on_failure :
    ToolSpecEditor.save true
        (fun p => if p = "dir/b.py" then some "out of space" else none)
        [⟨"dir/a.py", true⟩, ⟨"dir/b.py", true⟩] =
      ⟨true, [⟨"dir/a.py", false⟩, ⟨"dir/b.py", true⟩],
        ["Error while saving b.py: out of space"], [], ["dir/a.py"]⟩ := by
  decide

theorem enumFrom_filter_map_shift (l : List String) (a b : Nat) (q : Nat → Bool) :
    ((List.enumFrom (a + b) l).filter (fun kv => q kv.1)).map Prod.snd =
      ((List.enumFrom a l).filter (fun kv => q (kv.1 + b))).map Prod.snd := by
  induction l generalizing a with
  | nil => rfl
  | cons x xs ih =>
    cases hq : q (a + b) with
    | true =>
      simp only [List.enumFrom_cons, List.filter_cons, hq, if_true, List.map_cons]
      have h := ih (a + 1)
      rw [show a + 1 + b = a + b + 1 by omega] at h
      rw [h]
    | false =>
      simp only [List.enumFrom_cons, List.filter_cons, hq, Bool.false_eq_true, if_false]
      have h := ih (a + 1)
      rw [show a + 1 + b = a + b + 1 by omega] at h
      rw [h]

theorem head_tail_eq_kept (args : List String) (rows : List Nat) (row : Nat)
    (hrow : row ≤ args.length) :
    ((args.take row).enum.filter (fun kv => !rows.contains kv.1)).map Prod.snd ++
      ((args.drop row).enum.filter (fun kv => !rows.contains (kv.1 + row))).map Prod.snd =
      (args.enum.filter (fun kv => !rows.contains kv.1)).map Prod.snd := by
  conv_rhs => rw [← List.take_append_drop row args]
  rw [List.enum_append, List.filter_append, List.map_append]
  congr 1
  rw [List.length_take, Nat.min_eq_left hrow]
  have h := enumFrom_filter_map_shift (args.drop row) 0 row (fun k => !rows.contains k)
  rw [Nat.zero_add] at h
  exact h.symm

theorem kept_removed_perm (args : List String) (rows : List Nat) :
    ((args.enum.filter (fun kv => !rows.contains kv.1)).map Prod.snd ++
      (args.enum.filter (fun kv => rows.contains kv.1)).map Prod.snd).Perm args := by
  have h := List.filter_append_perm (fun kv : Nat × String => rows.contains kv.1) args.enum
  have h2 := h.map Prod.snd
  rw [List.map_append, List.enum_map_snd] at h2
  exact List.perm_append_comm.trans h2

theorem removed_fst (args : List String) (rows : List Nat) :
    (args.enum.filter (fun kv => rows.contains kv.1)).map Prod.fst =
      (List.range args.length).filter (fun k => rows.contains k) := by
  conv_rhs => rw [← List.enum_map_fst args]
  rw [List.filter_map]
  rfl

theorem range_filter_perm_rows (n : Nat) (rows : List Nat) (hnd : rows.Nodup)
    (hvalid : ∀ k ∈ rows, k < n) :
    ((List.range n).filter (fun k => rows.contains k)).Perm rows := by
  refine List.perm_of_nodup_nodup_toFinset_eq ((List.nodup_range n).filter _) hnd ?_
  ext a
  simp only [List.mem_toFinset, List.mem_filter, List.mem_range]
  constructor
  · rintro ⟨-, hc⟩
    simpa using hc
  · intro ha
    exact ⟨hvalid a ha, by simpa using ha⟩

theorem removed_snd_getD (args : List String) (rows : List Nat) :
    (args.enum.filter (fun kv => rows.contains kv.1)).map Prod.snd =
      ((args.enum.filter (fun kv => rows.contains kv.1)).map Prod.fst).map
        (fun k => args.getD k "") := by
  rw [List.map_map]
  refine List.map_congr_left ?_
  intro kv hkv
  have hmem := List.mem_of_mem_filter hkv
  have hget := List.mem_enum_iff_getElem?.mp hmem
  show kv.2 = args.getD kv.1 ""
  rw [List.getD_eq_getElem?_getD, hget]
  rfl

theorem body_perm_removed (args : List String) (rows : List Nat) (hnd : rows.Nodup)
    (hvalid : ∀ k ∈ rows, k < args.length) :
    (rows.map (fun k => args.getD k "")).Perm
      ((args.enum.filter (fun kv => rows.contains kv.1)).map Prod.snd) := by
  rw [removed_snd_getD, removed_fst]
  exact ((range_filter_perm_rows args.length rows hnd hvalid).map _).symm

/-- C8: dropping mime data with head `rows` carrying pairwise-distinct valid
row indexes at a valid insertion row emits through `args_updated` a permutation
of the current argument list and returns True. -/
theorem dropMimeData_rows_permutes (args : List String) (rows : List Nat) (row : Nat)
    (hnd : rows.Nodup) (hvalid : ∀ k ∈ rows, k < args.length)
    (hrow : row ≤ args.length) :
    CommandLineArgsModel.dropMimeData args (MimeContents.rows rows) row =
      (some (CommandLineArgsModel.new_args_for_rows args rows row), true) ∧
    (CommandLineArgsModel.new_args_for_rows args rows row).Perm args := by
  refine ⟨rfl, ?_⟩
  have hna : CommandLineArgsModel.new_args_for_rows args rows row =
      ((args.take row).enum.filter (fun kv => !rows.contains kv.1)).map Prod.snd ++
        rows.map (fun k => args.getD k "") ++
        ((args.drop row).enum.filter (fun kv => !rows.contains (kv.1 + row))).map
          Prod.snd := rfl
  rw [hna]
  have h1 := head_tail_eq_kept args rows row hrow
  have h2 := kept_removed_perm args rows
  have h3 := body_perm_removed args rows hnd hvalid
  refine List.Perm.trans ?_ h2
  refine List.Perm.trans ?_ (List.Perm.append_left _ h3)
  rw [← h1]
  rw [List.append_assoc, List.append_assoc]
  exact List.Perm.append_left _ List.perm_append_comm

/-- C8 witness: dropping rows 2 and 0 of a three-element argument list at row
1. -/
theorem dropMimeData_rows_permutes_witness :
    CommandLineArgsModel.dropMimeData ["a", "b", "c"] (MimeContents.rows [2, 0]) 1 =
      (some (CommandLineArgsModel.new_args_for_rows ["a", "b", "c"] [2, 0] 1), true) ∧
    (CommandLineArgsModel.new_args_for_rows ["a", "b", "c"] [2, 0] 1).Perm
      ["a", "b", "c"] :=
  dropMimeData_rows_permutes ["a", "b", "c"] [2, 0] 1 (by decide) (by decide) (by decide)

theorem lookup_dict_set (m : List (String × FileListItem)) (k k' : String)
    (v : FileListItem) :
    List.lookup k' (FileListModel.dict_set m k v) =
      if k' = k then some v else List.lookup k' m := by
  induction m with
  | nil =>
    by_cases h' : k' = k
    · simp [FileListModel.dict_set, List.lookup, h']
    · have hb : (k' == k) = false := by simp [h']
      simp [FileListModel.dict_set, List.lookup, h', hb]
  | cons kv rest ih =>
    obtain ⟨k0, v0⟩ := kv
    by_cases h : k0 = k
    · subst h
      by_cases h' : k' = k0
      · simp [FileListModel.dict_set, List.lookup, h']
      · have hb : (k' == k0) = false := by simp [h']
        simp [FileListModel.dict_set, List.lookup, h', hb]
    · simp only [FileListModel.dict_set, if_neg h]
      by_cases h' : k' = k0
      · subst h'
        simp [List.lookup, h]
      · have hb : (k' == k0) = false := by simp [h']
        simp [List.lookup, hb, ih]

theorem coherent_dict_set (m : List (String × FileListItem)) (k : String)
    (v : FileListItem)
    (hm : ∀ k' v', List.lookup k' m = some v' → v'.label = k') (hv : v.label = k) :
    ∀ k' v', List.lookup k' (FileListModel.dict_set m k v) = some v' → v'.label = k' := by
  intro k' v' h
  rw [lookup_dict_set] at h
  by_cases hk : k' = k
  · rw [if_pos hk] at h
    simp only [Option.some.injEq] at h
    subst h
    rw [hk]
    exact hv
  · rw [if_neg hk] at h
    exact hm k' v' h

theorem coherent_foldl (files : List FileListItem) :
    ∀ m, (∀ k v, List.lookup k m = some v → v.label = k) →
      ∀ k v,
        List.lookup k (files.foldl (fun m it => FileListModel.dict_set m it.label it) m) =
          some v → v.label = k := by
  induction files with
  | nil => exact fun m hm => hm
  | cons it rest ih =>
    intro m hm
    rw [List.foldl_cons]
    exact ih _ (coherent_dict_set m it.label it hm rfl)

theorem coherent_build (files : List FileListItem) :
    ∀ k v, List.lookup k (FileListModel.build_items files) = some v → v.label = k :=
  coherent_foldl files [] (by intro k v h; simp [List.lookup] at h)

theorem final_item_label (items : List (String × FileListItem))
    (hcoh : ∀ k v, List.lookup k items = some v → v.label = k) (l : String) :
    (FileListModel.final_item items l).label = l := by
  unfold FileListModel.final_item
  cases h : List.lookup l items with
  | none => rfl
  | some it => exact hcoh l it h

theorem from_resource_label (r : ProjectItemResource) (item : FileListItem)
    (h : FileListItem.from_resource r = some item) : file_label r = some item.label := by
  by_cases h1 : r.type_ = "file"
  · simp [FileListItem.from_resource, h1] at h
    subst h
    simp [file_label, h1]
  · by_cases h2 : r.type_ = "database"
    · cases hu : r.url with
      | none => simp [FileListItem.from_resource, h1, h2, hu] at h
      | some u =>
        simp [FileListItem.from_resource, h1, h2, hu] at h
        subst h
        simp [file_label, h1, h2, hu]
    · by_cases h3 : r.type_ = "transient_file"
      · cases hl : file_label r with
        | none => simp [FileListItem.from_resource, h1, h2, h3, hl] at h
        | some lab =>
          simp [FileListItem.from_resource, h1, h2, h3, hl] at h
          subst h
          rfl
      · by_cases h4 : r.type_ = "file_pattern"
        · cases hl : file_label r with
          | none => simp [FileListItem.from_resource, h1, h2, h3, h4, hl] at h
          | some lab =>
            simp [FileListItem.from_resource, h1, h2, h3, h4, hl] at h
            subst h
            rfl
        · simp [FileListItem.from_resource, h1, h2, h3, h4] at h

theorem update_loop_nodup (invalid : List String) :
    ∀ (rs : List ProjectItemResource) (items : List (String × FileListItem))
      (updated : List String) (new : List FileListItem)
      (out : List (String × FileListItem) × List String × List FileListItem),
    FileListModel.update_loop invalid rs items updated new = some out →
    (rs.filterMap file_label).Nodup →
    (∀ k v, List.lookup k items = some v → v.label = k) →
    updated.Nodup →
    (new.map (fun it => it.label)).Nodup →
    (∀ l ∈ updated, l ∉ new.map (fun it => it.label)) →
    (∀ l ∈ rs.filterMap file_label, l ∉ updated ∧ l ∉ new.map (fun it => it.label)) →
    (∀ k v, List.lookup k out.1 = some v → v.label = k) ∧
    out.2.1.Nodup ∧ (out.2.2.map (fun it => it.label)).Nodup ∧
    (∀ l ∈ out.2.1, l ∉ out.2.2.map (fun it => it.label)) := by
  intro rs
  induction rs with
  | nil =>
    intro items updated new out hloop _ hcoh hnd1 hnd2 hdisj _
    simp only [FileListModel.update_loop, Option.some.injEq] at hloop
    subst hloop
    exact ⟨hcoh, hnd1, hnd2, hdisj⟩
  | cons r rest ih =>
    intro items updated new out hloop hnd hcoh hnd1 hnd2 hdisj hfresh
    simp only [FileListModel.update_loop] at hloop
    cases hl : file_label r with
    | none =>
      have hnd' : (rest.filterMap file_label).Nodup := by
        simpa only [List.filterMap_cons, hl] using hnd
      have hfresh' :
          ∀ l ∈ rest.filterMap file_label,
            l ∉ updated ∧ l ∉ new.map (fun it => it.label) := by
        intro l hm
        exact hfresh l (by simp only [List.filterMap_cons, hl]; exact hm)
      by_cases hinv : invalid.contains r.type_ = true
      · rw [if_pos hinv] at hloop
        exact ih items updated new out hloop hnd' hcoh hnd1 hnd2 hdisj hfresh'
      · rw [if_neg hinv, hl] at hloop
        simp at hloop
    | some l =>
      have hndl : (l :: rest.filterMap file_label).Nodup := by
        simpa only [List.filterMap_cons, hl] using hnd
      have hnd' : (rest.filterMap file_label).Nodup := (List.nodup_cons.mp hndl).2
      have hlnotin : l ∉ rest.filterMap file_label := (List.nodup_cons.mp hndl).1
      have hfreshl : l ∉ updated ∧ l ∉ new.map (fun it => it.label) :=
        hfresh l (by simp only [List.filterMap_cons, hl]; exact List.mem_cons_self l _)
      have hfresh' :
          ∀ l' ∈ rest.filterMap file_label,
            l' ∉ updated ∧ l' ∉ new.map (fun it => it.label) := by
        intro l' h'
        exact hfresh l'
          (by simp only [List.filterMap_cons, hl]; exact List.mem_cons_of_mem l h')
      by_cases hinv : invalid.contains r.type_ = true
      · rw [if_pos hinv] at hloop
        exact ih items updated new out hloop hnd' hcoh hnd1 hnd2 hdisj hfresh'
      · rw [if_neg hinv, hl] at hloop
        dsimp only at hloop
        cases hlk : List.lookup l items with
        | some it =>
          rw [hlk] at hloop
          dsimp only at hloop
          apply ih _ _ _ _ hloop hnd'
          · intro k v hkv
            rw [lookup_dict_set] at hkv
            by_cases hk : k = l
            · rw [if_pos hk] at hkv
              simp only [Option.some.injEq] at hkv
              subst hkv
              rw [hk]
              exact hcoh l it hlk
            · rw [if_neg hk] at hkv
              exact hcoh k v hkv
          · refine List.Nodup.append hnd1 (List.nodup_singleton l) ?_
            intro a ha hb
            rw [List.mem_singleton] at hb
            subst hb
            exact hfreshl.1 ha
          · exact hnd2
          · intro a ha
            rcases List.mem_append.mp ha with h1 | h1
            · exact hdisj a h1
            · rw [List.mem_singleton] at h1
              subst h1
              exact hfreshl.2
          · intro l' h'
            have hf := hfresh' l' h'
            constructor
            · intro hmem
              rcases List.mem_append.mp hmem with h2 | h2
              · exact hf.1 h2
              · rw [List.mem_singleton] at h2
                subst h2
                exact hlnotin h'
            · exact hf.2
        | none =>
          rw [hlk] at hloop
          dsimp only at hloop
          cases hfr : FileListItem.from_resource r with
          | none =>
            rw [hfr] at hloop
            simp at hloop
          | some item =>
            rw [hfr] at hloop
            dsimp only at hloop
            have hil : item.label = l := by
              have hfl := from_resource_label r item hfr
              rw [hl] at hfl
              exact (Option.some.inj hfl).symm
            apply ih _ _ _ _ hloop hnd' hcoh hnd1
            · rw [List.map_append]
              refine List.Nodup.append hnd2 (by simp) ?_
              intro a ha hb
              simp only [List.map_cons, List.map_nil, List.mem_singleton] at hb
              subst hb
              rw [hil] at ha
              exact hfreshl.2 ha
            · intro a ha
              rw [List.map_append]
              intro hmem
              rcases List.mem_append.mp hmem with h2 | h2
              · exact hdisj a ha h2
              · simp only [List.map_cons, List.map_nil, List.mem_singleton] at h2
                subst h2
                rw [hil] at ha
                exact hfreshl.1 ha
            · intro l' h'
              have hf := hfresh' l' h'
              refine ⟨hf.1, ?_⟩
              rw [List.map_append]
              intro hmem
              rcases List.mem_append.mp hmem with h2 | h2
              · exact hf.2 h2
              · simp only [List.map_cons, List.map_nil, List.mem_singleton] at h2
                rw [h2, hil] at h'
                exact hlnotin h'

/-- C5 amended: whenever `FileListModel.update` completes on resources whose
labels are pairwise distinct, the labels of the resulting file items are
pairwise distinct (regardless of the labels the model held before); with
duplicate labels among the resources the resulting model holds duplicate
labels. -/
theorem filelistmodel_update_labels_nodup
    (files : List FileListItem) (invalid : List String)
    (resources : List ProjectItemResource) (files' : List FileListItem)
    (h : FileListModel.update files invalid resources = some files')
    (hnd : (resources.filterMap file_label).Nodup) :
    (files'.map (fun it => it.label)).Nodup := by
  unfold FileListModel.update at h
  rcases Option.map_eq_some'.mp h with ⟨out, hloop, hf⟩
  subst hf
  obtain ⟨hcoh, hnd1, hnd2, hdisj⟩ :=
    update_loop_nodup invalid resources (FileListModel.build_items files) [] [] out hloop
      hnd (coherent_build files) (by simp) (by simp) (by simp) (by simp)
  rw [List.map_append, List.map_map]
  have hlabels :
      out.2.1.map ((fun it => it.label) ∘ FileListModel.final_item out.1) = out.2.1 := by
    have : ((fun it => it.label) ∘ FileListModel.final_item out.1) = id :=
      funext fun l => final_item_label out.1 hcoh l
    rw [this, List.map_id]
  rw [hlabels]
  exact List.Nodup.append hnd1 hnd2 hdisj

/-- C5 witness: updating an empty model with two distinct file resources. -/
theorem filelistmodel_update_labels_nodup_witness :
    (([⟨"a", "", "P", false, true⟩, ⟨"b", "", "P", false, true⟩] : List FileListItem).map
      (fun it => it.label)).Nodup :=
  filelistmodel_update_labels_nodup [] []
    [⟨"file", none, "a", "P", none⟩, ⟨"file", none, "b", "P", none⟩]
    [⟨"a", "", "P", false, true⟩, ⟨"b", "", "P", false, true⟩]
    (by decide) (by decide)

/-- C5 counterexample: two resources with the same label make `update` produce
two file items with equal labels, so label uniqueness does not hold for every
list of resources. -/
theorem filelistmodel_update_duplicate_labels :
    FileListModel.update [] []
        [⟨"file", none, "a.txt", "P", none⟩, ⟨"file", none, "a.txt", "P", none⟩] =
      some [⟨"a.txt", "", "P", false, true⟩, ⟨"a.txt", "", "P", false, true⟩] ∧
    ¬(([⟨"a.txt", "", "P", false, true⟩, ⟨"a.txt", "", "P", false, true⟩] :
        List FileListItem).map (fun it => it.label)).Nodup := by
  constructor
  · decide
  · decide

theorem clear_execution_settings_tooltype (qs : QtAppSettings) (spec_type : String)
    (sd : SpecDict) :
    (ToolSpecEditor.clear_execution_settings qs spec_type sd).tooltype = sd.tooltype := by
  unfold ToolSpecEditor.clear_execution_settings
  by_cases h1 : spec_type = "python"
  · simp [h1]
  · by_cases h2 : spec_type = "executable" <;> simp [h1, h2]

theorem relpath_join (mp f : FPath) : path_relpath (path_join mp f) mp = f := by
  unfold path_relpath path_join
  rw [if_pos (List.isPrefixOf_iff_prefix.mpr (List.prefix_append mp f))]
  exact List.drop_left mp f

theorem map_relpath_join (mp : FPath) (l : List FPath) :
    (l.map (path_join mp)).map (fun f => path_relpath f mp) = l := by
  rw [List.map_map]
  have h : ((fun f => path_relpath f mp) ∘ path_join mp) = id :=
    funext fun f => relpath_join mp f
  rw [h, List.map_id]

theorem map_path_join_nil (l : List FPath) : l.map (path_join []) = l := by
  have h : path_join ([] : FPath) = id := funext fun p => by simp [path_join]
  rw [h, List.map_id]

theorem set_program_files_roundtrip (mp : FPath) (c : String) (rest : List FPath)
    (st : EditorState) :
    (ToolSpecEditor.set_program_files ((([c] : FPath) :: rest).map (path_join mp))
        st).spec_dict.includes = some (([c] : FPath) :: rest) ∧
    (ToolSpecEditor.set_program_files ((([c] : FPath) :: rest).map (path_join mp))
        st).includes_main_path = some mp := by
  unfold ToolSpecEditor.set_program_files
  have hne : (path_join mp [c]).isEmpty = false := by
    simp [path_join]
  have hbase : path_basename (path_join mp [c]) = [c] := by
    simp [path_basename, path_join, List.getLast?_concat]
  have hdir : path_dirname (path_join mp [c]) = mp := by
    simp [path_dirname, path_join, List.dropLast_concat]
  simp only [List.map_cons, List.headD_cons, List.filter_cons, hne, Bool.not_false,
    if_true, List.drop_succ_cons, List.drop_zero, hbase, hdir, map_relpath_join]
  exact ⟨trivial, trivial⟩

theorem push_tooltype_behaviour (qs : QtAppSettings) (tool_types : List String)
    (index : Nat) (st : EditorState) :
    (str_to_lower (tool_types.getD index "") = st.spec_dict.tooltype.getD "" →
      ToolSpecEditor.push_change_tooltype_command qs tool_types index st = st) ∧
    (str_to_lower (tool_types.getD index "") ≠ st.spec_dict.tooltype.getD "" →
      (ToolSpecEditor.push_change_tooltype_command qs tool_types index st).undo_stack =
        st.undo_stack ++
          [⟨SetterId.set_tooltype, PropValue.str (str_to_lower (tool_types.getD index "")),
            PropValue.str (st.spec_dict.tooltype.getD ""),
            "change Tool specification type"⟩] ∧
      (ToolSpecEditor.undo_command qs
          ⟨SetterId.set_tooltype, PropValue.str (str_to_lower (tool_types.getD index "")),
            PropValue.str (st.spec_dict.tooltype.getD ""),
            "change Tool specification type"⟩
          (ToolSpecEditor.push_change_tooltype_command qs tool_types index st)
        ).spec_dict.tooltype.getD "" = st.spec_dict.tooltype.getD "") := by
  constructor
  · intro heq
    unfold ToolSpecEditor.push_change_tooltype_command
    rw [if_pos heq]
  · intro hne
    unfold ToolSpecEditor.push_change_tooltype_command
    rw [if_neg hne]
    constructor
    · simp [ToolSpecEditor.push_command, ToolSpecEditor.apply_setter,
        ToolSpecEditor.set_tooltype]
    · simp [ToolSpecEditor.undo_command, ToolSpecEditor.push_command,
        ToolSpecEditor.apply_setter, ToolSpecEditor.set_tooltype,
        clear_execution_settings_tooltype]

theorem push_args_behaviour (new_value : List String) (qs : QtAppSettings)
    (st : EditorState) :
    (new_value = st.spec_dict.cmdline_args.getD [] →
      ToolSpecEditor.push_change_args_command new_value qs st = st) ∧
    (new_value ≠ st.spec_dict.cmdline_args.getD [] →
      (ToolSpecEditor.push_change_args_command new_value qs st).undo_stack =
        st.undo_stack ++
          [⟨SetterId.set_cmdline_args, PropValue.strList new_value,
            PropValue.strList (st.spec_dict.cmdline_args.getD []),
            "change command line args"⟩] ∧
      (ToolSpecEditor.undo_command qs
          ⟨SetterId.set_cmdline_args, PropValue.strList new_value,
            PropValue.strList (st.spec_dict.cmdline_args.getD []),
            "change command line args"⟩
          (ToolSpecEditor.push_change_args_command new_value qs st)
        ).spec_dict.cmdline_args.getD [] = st.spec_dict.cmdline_args.getD []) := by
  constructor
  · intro heq
    unfold ToolSpecEditor.push_change_args_command
    rw [if_pos heq]
  · intro hne
    unfold ToolSpecEditor.push_change_args_command
    rw [if_neg hne]
    constructor
    · simp [ToolSpecEditor.push_command, ToolSpecEditor.apply_setter,
        ToolSpecEditor.set_cmdline_args]
    · simp [ToolSpecEditor.undo_command, ToolSpecEditor.push_command,
        ToolSpecEditor.apply_setter, ToolSpecEditor.set_cmdline_args]

theorem add_program_files_behaviour (qs : QtAppSettings) (new_files : List FPath)
    (st : EditorState) (old_abs valid : List FPath)
    (hold : old_abs =
      match st.includes_main_path with
      | some mp => (st.spec_dict.includes.getD []).map (path_join mp)
      | none => st.spec_dict.includes.getD [])
    (hvalid : valid = ToolSpecEditor.validate_additional_program_files new_files old_abs
      st.includes_main_path) :
    (valid.isEmpty = true → ToolSpecEditor.add_program_files qs new_files st = st) ∧
    (valid.isEmpty = false →
      (ToolSpecEditor.add_program_files qs new_files st).undo_stack =
        st.undo_stack ++
          [⟨SetterId.set_program_files, PropValue.pathList (old_abs ++ valid),
            PropValue.pathList old_abs, "add program files"⟩] ∧
      (∀ (mp : FPath) (c : String) (rest : List FPath),
        st.includes_main_path = some mp →
        st.spec_dict.includes.getD [] = [c] :: rest →
        (ToolSpecEditor.undo_command qs
            ⟨SetterId.set_program_files, PropValue.pathList (old_abs ++ valid),
              PropValue.pathList old_abs, "add program files"⟩
            (ToolSpecEditor.add_program_files qs new_files st)
          ).spec_dict.includes.getD [] = st.spec_dict.includes.getD [] ∧
        (ToolSpecEditor.undo_command qs
            ⟨SetterId.set_program_files, PropValue.pathList (old_abs ++ valid),
              PropValue.pathList old_abs, "add program files"⟩
            (ToolSpecEditor.add_program_files qs new_files st)
          ).includes_main_path = st.includes_main_path) ∧
      (∀ (c : String) (rest : List FPath),
        st.includes_main_path = none →
        st.spec_dict.includes.getD [] = [c] :: rest →
        (ToolSpecEditor.undo_command qs
            ⟨SetterId.set_program_files, PropValue.pathList (old_abs ++ valid),
              PropValue.pathList old_abs, "add program files"⟩
            (ToolSpecEditor.add_program_files qs new_files st)
          ).spec_dict.includes.getD [] = st.spec_dict.includes.getD [])) := by
  constructor
  · intro hemp
    unfold ToolSpecEditor.add_program_files
    dsimp only
    rw [← hold, ← hvalid, hemp]
    rw [if_pos rfl]
  · intro hne
    have hpush : ToolSpecEditor.add_program_files qs new_files st =
        ToolSpecEditor.push_command qs st
          ⟨SetterId.set_program_files, PropValue.pathList (old_abs ++ valid),
            PropValue.pathList old_abs, "add program files"⟩ := by
      unfold ToolSpecEditor.add_program_files
      dsimp only
      rw [← hold, ← hvalid, hne]
      rw [if_neg (by simp)]
    refine ⟨?_, ?_, ?_⟩
    · rw [hpush]
      simp [ToolSpecEditor.push_command, ToolSpecEditor.apply_setter,
        ToolSpecEditor.set_program_files]
    · intro mp c rest hmp hrel
      have ho : old_abs = (([c] : FPath) :: rest).map (path_join mp) := by
        have h1 := hold
        rw [hmp] at h1
        dsimp only at h1
        rw [hrel] at h1
        exact h1
      simp only [ToolSpecEditor.undo_command, ToolSpecEditor.apply_setter, ho]
      constructor
      · rw [(set_program_files_roundtrip mp c rest _).1]
        simp [hrel]
      · rw [(set_program_files_roundtrip mp c rest _).2, hmp]
    · intro c rest hmp hrel
      have ho : old_abs = ([c] : FPath) :: rest := by
        have h1 := hold
        rw [hmp] at h1
        dsimp only at h1
        rw [hrel] at h1
        exact h1
      simp only [ToolSpecEditor.undo_command, ToolSpecEditor.apply_setter, ho]
      rw [show (([c] : FPath) :: rest) = (([c] : FPath) :: rest).map (path_join []) from
        (map_path_join_nil _).symm]
      rw [(set_program_files_roundtrip [] c rest _).1]
      simp [hrel]

theorem add_inputfiles_behaviour (qs : QtAppSettings) (file_name : String)
    (st : EditorState) :
    (file_name = "" → ToolSpecEditor.add_inputfiles qs file_name st = st) ∧
    (file_name ≠ "" →
      (ToolSpecEditor.add_inputfiles qs file_name st).undo_stack =
        st.undo_stack ++
          [⟨SetterId.populate_inputfiles_list,
            PropValue.strList (st.spec_dict.inputfiles.getD [] ++ [file_name]),
            PropValue.strList (st.spec_dict.inputfiles.getD []), "add input file"⟩] ∧
      (ToolSpecEditor.undo_command qs
          ⟨SetterId.populate_inputfiles_list,
            PropValue.strList (st.spec_dict.inputfiles.getD [] ++ [file_name]),
            PropValue.strList (st.spec_dict.inputfiles.getD []), "add input file"⟩
          (ToolSpecEditor.add_inputfiles qs file_name st)
        ).spec_dict.inputfiles.getD [] = st.spec_dict.inputfiles.getD []) := by
  constructor
  · intro heq
    unfold ToolSpecEditor.add_inputfiles
    rw [if_pos heq]
  · intro hne
    unfold ToolSpecEditor.add_inputfiles
    rw [if_neg hne]
    constructor
    · simp [ToolSpecEditor.push_command, ToolSpecEditor.apply_setter,
        ToolSpecEditor.populate_inputfiles_list]
    · simp [ToolSpecEditor.undo_command, ToolSpecEditor.push_command,
        ToolSpecEditor.apply_setter, ToolSpecEditor.populate_inputfiles_list]

theorem add_inputfiles_opt_behaviour (qs : QtAppSettings) (file_name : String)
    (st : EditorState) :
    (file_name = "" → ToolSpecEditor.add_inputfiles_opt qs file_name st = st) ∧
    (file_name ≠ "" →
      (ToolSpecEditor.add_inputfiles_opt qs file_name st).undo_stack =
        st.undo_stack ++
          [⟨SetterId.populate_inputfiles_opt_list,
            PropValue.strList (st.spec_dict.inputfiles_opt.getD [] ++ [file_name]),
            PropValue.strList (st.spec_dict.inputfiles_opt.getD []),
            "add optional input file"⟩] ∧
      (ToolSpecEditor.undo_command qs
          ⟨SetterId.populate_inputfiles_opt_list,
            PropValue.strList (st.spec_dict.inputfiles_opt.getD [] ++ [file_name]),
            PropValue.strList (st.spec_dict.inputfiles_opt.getD []),
            "add optional input file"⟩
          (ToolSpecEditor.add_inputfiles_opt qs file_name st)
        ).spec_dict.inputfiles_opt.getD [] = st.spec_dict.inputfiles_opt.getD []) := by
  constructor
  · intro heq
    unfold ToolSpecEditor.add_inputfiles_opt
    rw [if_pos heq]
  · intro hne
    unfold ToolSpecEditor.add_inputfiles_opt
    rw [if_neg hne]
    constructor
    · simp [ToolSpecEditor.push_command, ToolSpecEditor.apply_setter,
        ToolSpecEditor.populate_inputfiles_opt_list]
    · simp [ToolSpecEditor.undo_command, ToolSpecEditor.push_command,
        ToolSpecEditor.apply_setter, ToolSpecEditor.populate_inputfiles_opt_list]

theorem add_outputfiles_behaviour (qs : QtAppSettings) (file_name : String)
    (st : EditorState) :
    (file_name = "" → ToolSpecEditor.add_outputfiles qs file_name st = st) ∧
    (file_name ≠ "" →
      (ToolSpecEditor.add_outputfiles qs file_name st).undo_stack =
        st.undo_stack ++
          [⟨SetterId.populate_outputfiles_list,
            PropValue.strList (st.spec_dict.outputfiles.getD [] ++ [file_name]),
            PropValue.strList (st.spec_dict.outputfiles.getD []), "add output file"⟩] ∧
      (ToolSpecEditor.undo_command qs
          ⟨SetterId.populate_outputfiles_list,
            PropValue.strList (st.spec_dict.outputfiles.getD [] ++ [file_name]),
            PropValue.strList (st.spec_dict.outputfiles.getD []), "add output file"⟩
          (ToolSpecEditor.add_outputfiles qs file_name st)
        ).spec_dict.outputfiles.getD [] = st.spec_dict.outputfiles.getD []) := by
  constructor
  · intro heq
    unfold ToolSpecEditor.add_outputfiles
    rw [if_pos heq]
  · intro hne
    unfold ToolSpecEditor.add_outputfiles
    rw [if_neg hne]
    constructor
    · simp [ToolSpecEditor.push_command, ToolSpecEditor.apply_setter,
        ToolSpecEditor.populate_outputfiles_list]
    · simp [ToolSpecEditor.undo_command, ToolSpecEditor.push_command,
        ToolSpecEditor.apply_setter, ToolSpecEditor.populate_outputfiles_list]

/-- C6 amended: tool-type, command-line-argument, program-file, input-file,
optional-input-file and output-file edits push a `ChangeSpecPropertyCommand`
storing both the new and the old value onto the editor's single undo stack; no
command is pushed when the new value equals the current one (for program files:
when validation leaves no file to add), and undoing a pushed command restores
the old value — except that undoing a program-file change whose old
program-file list was empty leaves an includes list with one empty entry
(meaning no main program) instead of the empty list; the includes list is
restored whenever the old program-file list was non-empty with its first entry
a plain file name, and when the main-program path was set it is restored
too. -/
theorem spec_editor_undo_command_pattern :
    (∀ (qs : QtAppSettings) (tool_types : List String) (index : Nat) (st : EditorState),
      (str_to_lower (tool_types.getD index "") = st.spec_dict.tooltype.getD "" →
        ToolSpecEditor.push_change_tooltype_command qs tool_types index st = st) ∧
      (str_to_lower (tool_types.getD index "") ≠ st.spec_dict.tooltype.getD "" →
        (ToolSpecEditor.push_change_tooltype_command qs tool_types index st).undo_stack =
          st.undo_stack ++
            [⟨SetterId.set_tooltype,
              PropValue.str (str_to_lower (tool_types.getD index "")),
              PropValue.str (st.spec_dict.tooltype.getD ""),
              "change Tool specification type"⟩] ∧
        (ToolSpecEditor.undo_command qs
            ⟨SetterId.set_tooltype,
              PropValue.str (str_to_lower (tool_types.getD index "")),
              PropValue.str (st.spec_dict.tooltype.getD ""),
              "change Tool specification type"⟩
            (ToolSpecEditor.push_change_tooltype_command qs tool_types index st)
          ).spec_dict.tooltype.getD "" = st.spec_dict.tooltype.getD "")) ∧
    (∀ (new_value : List String) (qs : QtAppSettings) (st : EditorState),
      (new_value = st.spec_dict.cmdline_args.getD [] →
        ToolSpecEditor.push_change_args_command new_value qs st = st) ∧
      (new_value ≠ st.spec_dict.cmdline_args.getD [] →
        (ToolSpecEditor.push_change_args_command new_value qs st).undo_stack =
          st.undo_stack ++
            [⟨SetterId.set_cmdline_args, PropValue.strList new_value,
              PropValue.strList (st.spec_dict.cmdline_args.getD []),
              "change command line args"⟩] ∧
        (ToolSpecEditor.undo_command qs
            ⟨SetterId.set_cmdline_args, PropValue.strList new_value,
              PropValue.strList (st.spec_dict.cmdline_args.getD []),
              "change command line args"⟩
            (ToolSpecEditor.push_change_args_command new_value qs st)
          ).spec_dict.cmdline_args.getD [] = st.spec_dict.cmdline_args.getD [])) ∧
    (∀ (qs : QtAppSettings) (new_files : List FPath) (st : EditorState)
        (old_abs valid : List FPath),
      old_abs =
        (match st.includes_main_path with
         | some mp => (st.spec_dict.includes.getD []).map (path_join mp)
         | none => st.spec_dict.includes.getD []) →
      valid = ToolSpecEditor.validate_additional_program_files new_files old_abs
        st.includes_main_path →
      (valid.isEmpty = true → ToolSpecEditor.add_program_files qs new_files st = st) ∧
      (valid.isEmpty = false →
        (ToolSpecEditor.add_program_files qs new_files st).undo_stack =
          st.undo_stack ++
            [⟨SetterId.set_program_files, PropValue.pathList (old_abs ++ valid),
              PropValue.pathList old_abs, "add program files"⟩] ∧
        (∀ (mp : FPath) (c : String) (rest : List FPath),
          st.includes_main_path = some mp →
          st.spec_dict.includes.getD [] = [c] :: rest →
          (ToolSpecEditor.undo_command qs
              ⟨SetterId.set_program_files, PropValue.pathList (old_abs ++ valid),
                PropValue.pathList old_abs, "add program files"⟩
              (ToolSpecEditor.add_program_files qs new_files st)
            ).spec_dict.includes.getD [] = st.spec_dict.includes.getD [] ∧
          (ToolSpecEditor.undo_command qs
              ⟨SetterId.set_program_files, PropValue.pathList (old_abs ++ valid),
                PropValue.pathList old_abs, "add program files"⟩
              (ToolSpecEditor.add_program_files qs new_files st)
            ).includes_main_path = st.includes_main_path) ∧
        (∀ (c : String) (rest : List FPath),
          st.includes_main_path = none →
          st.spec_dict.includes.getD [] = [c] :: rest →
          (ToolSpecEditor.undo_command qs
              ⟨SetterId.set_program_files, PropValue.pathList (old_abs ++ valid),
                PropValue.pathList old_abs, "add program files"⟩
              (ToolSpecEditor.add_program_files qs new_files st)
            ).spec_dict.includes.getD [] = st.spec_dict.includes.getD []))) ∧
    (∀ (qs : QtAppSettings) (file_name : String) (st : EditorState),
      (file_name = "" → ToolSpecEditor.add_inputfiles qs file_name st = st) ∧
      (file_name ≠ "" →
        (ToolSpecEditor.add_inputfiles qs file_name st).undo_stack =
          st.undo_stack ++
            [⟨SetterId.populate_inputfiles_list,
              PropValue.strList (st.spec_dict.inputfiles.getD [] ++ [file_name]),
              PropValue.strList (st.spec_dict.inputfiles.getD []), "add input file"⟩] ∧
        (ToolSpecEditor.undo_command qs
            ⟨SetterId.populate_inputfiles_list,
              PropValue.strList (st.spec_dict.inputfiles.getD [] ++ [file_name]),
              PropValue.strList (st.spec_dict.inputfiles.getD []), "add input file"⟩
            (ToolSpecEditor.add_inputfiles qs file_name st)
          ).spec_dict.inputfiles.getD [] = st.spec_dict.inputfiles.getD [])) ∧
    (∀ (qs : QtAppSettings) (file_name : String) (st : EditorState),
      (file_name = "" → ToolSpecEditor.add_inputfiles_opt qs file_name st = st) ∧
      (file_name ≠ "" →
        (ToolSpecEditor.add_inputfiles_opt qs file_name st).undo_stack =
          st.undo_stack ++
            [⟨SetterId.populate_inputfiles_opt_list,
              PropValue.strList (st.spec_dict.inputfiles_opt.getD [] ++ [file_name]),
              PropValue.strList (st.spec_dict.inputfiles_opt.getD []),
              "add optional input file"⟩] ∧
        (ToolSpecEditor.undo_command qs
            ⟨SetterId.populate_inputfiles_opt_list,
              PropValue.strList (st.spec_dict.inputfiles_opt.getD [] ++ [file_name]),
              PropValue.strList (st.spec_dict.inputfiles_opt.getD []),
              "add optional input file"⟩
            (ToolSpecEditor.add_inputfiles_opt qs file_name st)
          ).spec_dict.inputfiles_opt.getD [] = st.spec_dict.inputfiles_opt.getD [])) ∧
    (∀ (qs : QtAppSettings) (file_name : String) (st : EditorState),
      (file_name = "" → ToolSpecEditor.add_outputfiles qs file_name st = st) ∧
      (file_name ≠ "" →
        (ToolSpecEditor.add_outputfiles qs file_name st).undo_stack =
          st.undo_stack ++
            [⟨SetterId.populate_outputfiles_list,
              PropValue.strList (st.spec_dict.outputfiles.getD [] ++ [file_name]),
              PropValue.strList (st.spec_dict.outputfiles.getD []), "add output file"⟩] ∧
        (ToolSpecEditor.undo_command qs
            ⟨SetterId.populate_outputfiles_list,
              PropValue.strList (st.spec_dict.outputfiles.getD [] ++ [file_name]),
              PropValue.strList (st.spec_dict.outputfiles.getD []), "add output file"⟩
            (ToolSpecEditor.add_outputfiles qs file_name st)
          ).spec_dict.outputfiles.getD [] = st.spec_dict.outputfiles.getD [])) :=
  ⟨push_tooltype_behaviour, push_args_behaviour,
    fun qs new_files st old_abs valid hold hvalid =>
      add_program_files_behaviour qs new_files st old_abs valid hold hvalid,
    add_inputfiles_behaviour, add_inputfiles_opt_behaviour, add_outputfiles_behaviour⟩

/-- C6 witness: changing the tool type of a fresh editor pushes the command and
undoing it restores the (empty) old value. -/
theorem spec_editor_undo_command_pattern_witness :
    (ToolSpecEditor.push_change_tooltype_command ⟨"py", "exe"⟩ ["Python"] 0
        ⟨⟨none, none, none, none, none, none, none⟩, none, []⟩).undo_stack =
      (⟨⟨none, none, none, none, none, none, none⟩, none, []⟩ : EditorState).undo_stack ++
        [⟨SetterId.set_tooltype,
          PropValue.str (str_to_lower ((["Python"] : List String).getD 0 "")),
          PropValue.str
            ((⟨⟨none, none, none, none, none, none, none⟩, none, []⟩ :
              EditorState).spec_dict.tooltype.getD ""),
          "change Tool specification type"⟩] ∧
    (ToolSpecEditor.undo_command ⟨"py", "exe"⟩
        ⟨SetterId.set_tooltype,
          PropValue.str (str_to_lower ((["Python"] : List String).getD 0 "")),
          PropValue.str
            ((⟨⟨none, none, none, none, none, none, none⟩, none, []⟩ :
              EditorState).spec_dict.tooltype.getD ""),
          "change Tool specification type"⟩
        (ToolSpecEditor.push_change_tooltype_command ⟨"py", "exe"⟩ ["Python"] 0
          ⟨⟨none, none, none, none, none, none, none⟩, none, []⟩)
      ).spec_dict.tooltype.getD "" =
      (⟨⟨none, none, none, none, none, none, none⟩, none, []⟩ :
        EditorState).spec_dict.tooltype.getD "" :=
  (spec_editor_undo_command_pattern.1 ⟨"py", "exe"⟩ ["Python"] 0
    ⟨⟨none, none, none, none, none, none, none⟩, none, []⟩).2 (by decide)

/-- C6 counterexample: adding a program file to a fresh editor (empty includes)
pushes a command storing the old value `[]`, but undoing it sets the includes
list to a one-element list holding an empty path — `spec_dict.get("includes",
[])` does not get its old value back. -/
theorem add_program_files_undo_leaves_empty_entry :
    (ToolSpecEditor.add_program_files ⟨"py", "exe"⟩ [["f"]]
        ⟨⟨none, none, none, none, none, none, none⟩, none, []⟩).undo_stack =
      [⟨SetterId.set_program_files, PropValue.pathList [["f"]], PropValue.pathList [],
        "add program files"⟩] ∧
    (ToolSpecEditor.undo_command ⟨"py", "exe"⟩
        ⟨SetterId.set_program_files, PropValue.pathList [["f"]], PropValue.pathList [],
          "add program files"⟩
        (ToolSpecEditor.add_program_files ⟨"py", "exe"⟩ [["f"]]
          ⟨⟨none, none, none, none, none, none, none⟩, none, []⟩)
      ).spec_dict.includes.getD [] = [([] : FPath)] ∧
    ([([] : FPath)] : List FPath) ≠ ([] : List FPath) := by
  refine ⟨?_, ?_, ?_⟩ <;> decide
